import Mathlib

/-!
Shallow embedding of the sheet motion engine: the `SheetPhysics` spring
simulator and the position-tracking parts of `SheetController`.
Numbers are modelled as exact rationals; fallible JavaScript operations
(those that can throw a `TypeError`) return `Option`, with `none`
standing for a thrown exception.
-/

namespace SheetMotion

/-- JavaScript `Math.sign` restricted to rationals. -/
def sgn (x : ℚ) : ℚ := if 0 < x then 1 else if x < 0 then -1 else 0

/-- Configuration of `SheetPhysics` (constructor options, immutable).
The snap-point table is the insertion-ordered entry list of the JS object. -/
structure Config where
  mass : ℚ
  stiffness : ℚ
  damping : ℚ
  snapPoints : List (String × ℚ)
  allowOvershoot : Bool
  overshootMultiplier : ℚ
  distanceThreshold : ℚ
deriving DecidableEq

/-- Mutable state of a `SheetPhysics` instance. -/
structure State where
  position : ℚ
  targetPosition : ℚ
  velocity : ℚ
  animating : Bool
  positionHistory : List ℚ
  timeHistory : List ℚ
deriving DecidableEq

/-- Result of one animation frame: the new state, and whether the
`onComplete` callback fired. -/
structure FrameResult where
  state : State
  completed : Bool
deriving DecidableEq

/-- JavaScript `Array.prototype.reduce` without an initial value,
specialised to the nearest-snap-point callback: `none` models the
`TypeError` thrown on an empty array. -/
def reduceNearest (position : ℚ) : List ℚ → Option ℚ
  | [] => none
  | v :: vs =>
    some (vs.foldl (fun prev curr => if |curr - position| < |prev - position| then curr else prev) v)

/-- Embeds `SheetPhysics.findNearestSnapPoint`: linear scan of the snap
values by `reduce`; throws (`none`) when the snap table is empty. -/
def findNearestSnapPoint? (snapPoints : List (String × ℚ)) (position : ℚ) : Option ℚ :=
  reduceNearest position (snapPoints.map Prod.snd)

/-- Embeds `SheetPhysics.animateTo`: sets the velocity when an initial
velocity is supplied, sets the target, applies the overshoot adjustment,
and marks the state animating. -/
def animateTo (cfg : Config) (s : State) (targetPosition : ℚ) (initialVelocity : Option ℚ) :
    State :=
  let v := match initialVelocity with
    | some v0 => v0
    | none => s.velocity
  let t0 := targetPosition
  let t :=
    if cfg.allowOvershoot = true ∧ 2 < |v| then
      if cfg.distanceThreshold < |t0 - s.position| then
        let overshootAmount := min (1/10) (|v| * cfg.overshootMultiplier)
        let direction := sgn v
        max 0 (min 1 (t0 + overshootAmount * direction))
      else t0
    else t0
  { s with velocity := v, targetPosition := t, animating := true }

/-- Velocity after one integration step of `SheetPhysics.animationFrame`:
spring force, non-linear damping force, acceleration, Euler velocity update,
and the tiny-motion zeroing threshold. -/
def stepVelocity (cfg : Config) (s : State) (dt : ℚ) : ℚ :=
  let displacement := s.targetPosition - s.position
  let springForce := displacement * cfg.stiffness
  let velocitySquared := s.velocity * |s.velocity|
  let dampingForce :=
    if 0 < velocitySquared then s.velocity * (cfg.damping + |s.velocity| * (5/100))
    else s.velocity * cfg.damping
  let acceleration := (springForce - dampingForce) / cfg.mass
  let v1 := s.velocity + acceleration * dt
  if |v1| < 1/1000 ∧ |displacement| < 1/1000 then 0 else v1

/-- Position after one integration step (semi-implicit Euler: the updated
velocity moves the position). -/
def stepPosition (cfg : Config) (s : State) (dt : ℚ) : ℚ :=
  s.position + stepVelocity cfg s dt * dt

/-- Embeds `SheetPhysics.animationFrame` with elapsed time `dt` (the caller clamps
`dt` to at most `0.064`).  Continues while velocity or displacement is above
the settle thresholds; otherwise snaps to the nearest snap point when within
`0.01` of it (else to the target), zeroes the velocity, stops animating and
fires `onComplete`.  `none` models the `TypeError` a settling step throws
when the snap table is empty. -/
def animationFrame (cfg : Config) (s : State) (dt : ℚ) : Option FrameResult :=
  let v2 := stepVelocity cfg s dt
  let p1 := stepPosition cfg s dt
  if 1/100 < |v2| ∨ 1/1000 < |s.targetPosition - s.position| then
    some ⟨{ s with position := p1, velocity := v2 }, false⟩
  else
    match findNearestSnapPoint? cfg.snapPoints p1 with
    | none => none
    | some nearest =>
      some ⟨{ s with
              position := if |p1 - nearest| < 1/100 then nearest else s.targetPosition,
              velocity := 0,
              animating := false }, true⟩

/-- Embeds `SheetPhysics.updatePositionFromDrag`: appends the sample to the
bounded history (capacity 8, oldest evicted first; the source tests the
position history length for both evictions) and sets the position
directly. -/
def updatePositionFromDrag (s : State) (dragPosition now : ℚ) : State :=
  let ph := s.positionHistory ++ [dragPosition]
  let th := s.timeHistory ++ [now]
  { s with
    position := dragPosition,
    positionHistory := if 8 < ph.length then ph.tail else ph,
    timeHistory := if 8 < ph.length then th.tail else th }

/-- The (velocity, weight) pairs collected by the loop in
`SheetPhysics.calculateVelocity`: one pair per adjacent history pair with a
positive time delta; times are milliseconds, converted to seconds. -/
def velocityWeightPairs (ph th : List ℚ) : List (ℚ × ℚ) :=
  (List.range (ph.length - 1)).filterMap fun j =>
    let i := j + 1
    let timeDelta := (th.getD i 0 - th.getD (i - 1) 0) / 1000
    if 0 < timeDelta then
      some ((ph.getD i 0 - ph.getD (i - 1) 0) / timeDelta,
            ((i : ℚ) / ((ph.length : ℚ) - 1)) ^ 2)
    else none

/-- Embeds `SheetPhysics.calculateVelocity`: weighted average of the
collected consecutive-sample velocities; 0 with fewer than two samples, no
valid pair, or non-positive total weight. -/
def calculateVelocity (ph th : List ℚ) : ℚ :=
  if ph.length < 2 then 0
  else
    let pairs := velocityWeightPairs ph th
    if pairs = [] then 0
    else
      let totalVelocity := (pairs.map fun vw => vw.1 * vw.2).sum
      let totalWeight := (pairs.map Prod.snd).sum
      if 0 < totalWeight then totalVelocity / totalWeight else 0

/-- Stable insertion of `x` into a list already sorted by `key`: `x` goes
before the first element with a key at least as large, so elements with
equal keys keep their original relative order. -/
def stableInsertLe (key : α → ℚ) (x : α) : List α → List α
  | [] => [x]
  | y :: ys => if key x ≤ key y then x :: y :: ys else y :: stableInsertLe key x ys

/-- Stable sort by a rational key.  `Array.prototype.sort` with comparator
`(a, b) => key a - key b` is required to be stable and sorted, which
determines its output uniquely; stable insertion sort produces that list. -/
def stableSortBy (key : α → ℚ) : List α → List α
  | [] => []
  | x :: xs => stableInsertLe key x (stableSortBy key xs)

/-- Embeds `SheetPhysics.completePositionChange`: resolves the commit
target from the release position and the (gained) velocity and starts the
animation.
Returns the target name and the post-`animateTo` state; `none` models the
`TypeError` thrown when the snap table is empty. -/
def completePositionChange? (cfg : Config) (s : State) (velocityOverride : Option ℚ) :
    Option (String × State) :=
  let measured := match velocityOverride with
    | some v0 => v0
    | none => calculateVelocity s.positionHistory s.timeHistory
  let v := measured * (12/10)
  let s1 : State := { s with velocity := v, positionHistory := [], timeHistory := [] }
  match stableSortBy (fun e => |e.2 - s.position|) cfg.snapPoints with
  | [] => none
  | closestE :: _ =>
    let closest := closestE.2
    let closestName := closestE.1
    let chosen : ℚ × String :=
      if 1/2 < |v| then
        let sortedByPosition := stableSortBy (fun e => e.2) cfg.snapPoints
        let currentIndex := sortedByPosition.findIdx (fun e => e.1 == closestName)
        let direction := sgn v
        if 0 < direction then
          if currentIndex < sortedByPosition.length - 1 then
            match sortedByPosition.get? (currentIndex + 1) with
            | some nextE =>
              let distance := nextE.2 - s.position
              if 0 < distance ∧ (1/2 * (1 + distance * 2) < |v| ∨ distance < 1/10) then
                (nextE.2, nextE.1)
              else (closest, closestName)
            | none => (closest, closestName)
          else (closest, closestName)
        else if direction < 0 then
          if 0 < currentIndex then
            match sortedByPosition.get? (currentIndex - 1) with
            | some prevE =>
              let distance := s.position - prevE.2
              if 0 < distance ∧ (1/2 * (1 + distance * 2) < |v| ∨ distance < 1/10) then
                (prevE.2, prevE.1)
              else (closest, closestName)
            | none => (closest, closestName)
          else (closest, closestName)
        else (closest, closestName)
      else (closest, closestName)
    some (chosen.2, animateTo cfg s1 chosen.1 (some v))

/-- Embeds `SheetPhysics.getPositionName`: first snap entry whose value is
strictly within the `0.02` tolerance of the position, else `none`. -/
def getPositionName (snapPoints : List (String × ℚ)) (position : ℚ) : Option String :=
  match snapPoints with
  | [] => none
  | (name, value) :: rest =>
    if |position - value| < 1/50 then some name else getPositionName rest position

/-- The named-position update in `SheetController.updateSheetPosition`:
the current name changes (and the position-change notification fires, the
returned boolean) only when `getPositionName` yields a non-empty name
different from the current one.  (The emptiness test models JavaScript
string truthiness in `if (positionName && ...)`.) -/
def updateCurrentPosition (snapPoints : List (String × ℚ)) (current : String) (p : ℚ) :
    String × Bool :=
  match getPositionName snapPoints p with
  | some n => if n ≠ "" ∧ current ≠ n then (n, true) else (current, false)
  | none => (current, false)

/-- Edge resistance applied in `onPointerMove` (identical in both
`SheetController` variants) to the raw drag-derived position before it is
fed to `updatePositionFromDrag`. -/
def applyResistance (newPosition : ℚ) : ℚ :=
  if newPosition < 0 then newPosition * (3/10)
  else if 19/20 < newPosition then 19/20 + (newPosition - 19/20) * (3/10)
  else newPosition

/-- The constructor-default snap table of `SheetPhysics`. -/
def defaultSnapPoints : List (String × ℚ) :=
  [("closed", 0), ("docked", 3/20), ("half", 1/2), ("full", 17/20)]

/-- The constructor-default configuration of `SheetPhysics`. -/
def defaultConfig : Config :=
  ⟨1, 350, 35, defaultSnapPoints, true, 1/5, 1/10⟩

/-- A configuration whose snap table is empty (a malformed configuration). -/
def emptyConfig : Config := ⟨1, 350, 35, [], true, 1/5, 1/10⟩

/-- The snap table of the release scenario in the specification. -/
def scenarioConfig : Config :=
  ⟨1, 350, 35, [("closed", 0), ("half", 1/2), ("full", 19/20)], true, 1/5, 1/10⟩

/-- A state released at position `0.55` (the specification scenario). -/
def scenarioState : State := ⟨11/20, 1/2, 0, false, [], []⟩

/-- A settled state at the `closed` snap point. -/
def settled0 : State := ⟨0, 0, 0, false, [], []⟩

/-- The settled state, but with the animation loop still scheduled. -/
def settlingState : State := ⟨0, 0, 0, true, [], []⟩

/-- A state mid-animation, far from its target. -/
def stallState : State := ⟨0, 1, 0, true, [], []⟩

/-- A snap table with two distinct names at the same position value. -/
def dupConfig : Config := ⟨1, 350, 35, [("a", 1/2), ("b", 1/2)], true, 1/5, 1/10⟩

/-- A state resting exactly on the duplicated snap value. -/
def dupState : State := ⟨1/2, 1/2, 0, false, [], []⟩

/-- The settled-state invariant asserted by the specification: while not
animating, the velocity is zero and the position is the integration target
or exactly the nearest snap point. -/
def settledInvariant (cfg : Config) (s : State) : Prop :=
  s.animating = false →
    s.velocity = 0 ∧
      (s.position = s.targetPosition ∨
        findNearestSnapPoint? cfg.snapPoints s.position = some s.position)

/-- One integration step under the default configuration with zero elapsed
time, an admissible frame under the `min 0.064` clamp (total: the default
snap table is non-empty, so the settle branch cannot throw; the fallback is
never taken). -/
def zeroDtStep (s : State) : State :=
  ((animationFrame defaultConfig s 0).map FrameResult.state).getD s

/-- First element of a list attaining the minimal key, scanning left to
right and replacing the best candidate only on a strictly smaller key. -/
def firstMinBy (key : α → ℚ) : List α → Option α
  | [] => none
  | x :: xs => some (xs.foldl (fun best y => if key y < key best then y else best) x)

/-- Modelled from the claim wording of C1 as frozen (no positivity
requirement on the remaining distance): nearest entry by absolute distance;
with significant gained velocity, the ordered-by-position neighbor in the
travel direction whenever the remaining distance is under `0.1` or the
velocity clears the distance-scaled threshold. -/
def commitTargetClaim (snapPoints : List (String × ℚ)) (position measuredV : ℚ) :
    Option String :=
  let v := measuredV * (12/10)
  match firstMinBy (fun e => |e.2 - position|) snapPoints with
  | none => none
  | some nearest =>
    if |v| ≤ 1/2 then some nearest.1
    else
      let ordered := stableSortBy (fun e => e.2) snapPoints
      let i := ordered.findIdx (fun e => e.1 == nearest.1)
      let neighbor : Option (String × ℚ) :=
        if 0 < v then ordered.get? (i + 1)
        else if i = 0 then none else ordered.get? (i - 1)
      match neighbor with
      | none => some nearest.1
      | some nb =>
        let d := if 0 < v then nb.2 - position else position - nb.2
        if d < 1/10 ∨ 1/2 * (1 + d * 2) < |v| then some nb.1
        else some nearest.1

/-- The amended commit-target resolution: as the claim states it, plus the
strict positivity of the remaining distance that the source requires before
taking the neighbor. -/
def commitTargetAmended (snapPoints : List (String × ℚ)) (position measuredV : ℚ) :
    Option String :=
  let v := measuredV * (12/10)
  match firstMinBy (fun e => |e.2 - position|) snapPoints with
  | none => none
  | some nearest =>
    if |v| ≤ 1/2 then some nearest.1
    else
      let ordered := stableSortBy (fun e => e.2) snapPoints
      let i := ordered.findIdx (fun e => e.1 == nearest.1)
      let neighbor : Option (String × ℚ) :=
        if 0 < v then ordered.get? (i + 1)
        else if i = 0 then none else ordered.get? (i - 1)
      match neighbor with
      | none => some nearest.1
      | some nb =>
        let d := if 0 < v then nb.2 - position else position - nb.2
        if 0 < d ∧ (d < 1/10 ∨ 1/2 * (1 + d * 2) < |v|) then some nb.1
        else some nearest.1

/-- Weight of the `i`-th consecutive delta among `n` history samples, as the
specification states it. -/
def deltaWeight (n i : ℕ) : ℚ := ((i : ℚ) / ((n : ℚ) - 1)) ^ 2

/-- Velocity of the `i`-th consecutive delta (positions per second; the
stored times are milliseconds). -/
def deltaVelocity (ph th : List ℚ) (i : ℕ) : ℚ :=
  (ph.getD i 0 - ph.getD (i - 1) 0) / ((th.getD i 0 - th.getD (i - 1) 0) / 1000)

/-- Indices of the adjacent history pairs with a positive time delta. -/
def validDeltaIndices (ph th : List ℚ) : List ℕ :=
  (List.range ph.length).filter fun i =>
    decide (1 ≤ i) && decide (0 < (th.getD i 0 - th.getD (i - 1) 0) / 1000)

/-- The velocity estimate as the specification describes it: the weighted
average over the valid consecutive deltas, `0` with fewer than two samples
or zero total weight. -/
def calculateVelocitySpec (ph th : List ℚ) : ℚ :=
  if ph.length < 2 then 0
  else
    let idx := validDeltaIndices ph th
    let W := (idx.map (deltaWeight ph.length)).sum
    if W = 0 then 0
    else (idx.map fun i => deltaVelocity ph th i * deltaWeight ph.length i).sum / W

/-- Claim C4: `animateTo` sets `targetPosition` to the requested target,
except that when overshoot is allowed, the effective velocity exceeds 2 in
magnitude, and the un-overshot travel distance exceeds `distanceThreshold`,
the target becomes `t + sign(v) * min(0.1, |v| * overshootMultiplier)`
clamped into `[0, 1]`. -/
theorem animateTo_targetPosition (cfg : Config) (s : State) (t : ℚ) (v0 : Option ℚ) :
    (animateTo cfg s t v0).targetPosition =
      if cfg.allowOvershoot = true ∧ 2 < |v0.getD s.velocity| ∧
          cfg.distanceThreshold < |t - s.position| then
        max 0 (min 1 (t + sgn (v0.getD s.velocity) *
          min (1/10) (|v0.getD s.velocity| * cfg.overshootMultiplier)))
      else t := by
  cases v0 <;>
    simp only [animateTo, Option.getD] <;>
    split_ifs <;>
    first
      | rfl
      | tauto
      | (rw [mul_comm])

/-- Claim C8: the edge-resistance mapping scales below-range positions by
`0.3`, scales the excess over `0.95` by `0.3`, is the identity in between,
is strictly monotone, and keeps out-of-range values strictly between the
raw value and the violated bound (no hard clamp). -/
theorem applyResistance_monotone_soft (r s : ℚ) (h : r < s) :
    applyResistance r < applyResistance s ∧
    (r < 0 → applyResistance r = r * (3/10) ∧ r < applyResistance r ∧ applyResistance r < 0) ∧
    (19/20 < r → applyResistance r = 19/20 + (r - 19/20) * (3/10) ∧
      19/20 < applyResistance r ∧ applyResistance r < r) ∧
    (0 ≤ r → r ≤ 19/20 → applyResistance r = r) := by
  refine ⟨?_, fun h1 => ?_, fun h1 => ?_, fun h1 h2 => ?_⟩ <;>
    unfold applyResistance <;>
    split_ifs <;>
    first
      | linarith
      | (refine ⟨?_, ?_, ?_⟩ <;> linarith)

/-- Witness for C8 at the concrete pair `(-1, 2)`. -/
theorem applyResistance_monotone_soft_witness :
    (-1 : ℚ) < 2 ∧ applyResistance (-1) < applyResistance 2 :=
  ⟨by norm_num, (applyResistance_monotone_soft (-1) 2 (by norm_num)).1⟩

/-- Claim C2, counterexample: releasing at `0.55` with measured velocity
`+0.6` (gained to `0.72`) does not commit to `full`, because neither
`0.40 < 0.1` nor `0.72 > 0.5 * (1 + 0.40 * 2) = 0.9` holds. -/
theorem scenario_commit_not_full :
    (completePositionChange? scenarioConfig scenarioState (some (3/5))).map Prod.fst
      ≠ some "full" := by
  norm_num [completePositionChange?, scenarioConfig, scenarioState, stableSortBy,
    stableInsertLe, sgn, List.findIdx, List.findIdx.go, List.get?,
    abs_of_nonneg, abs_of_nonpos]
  norm_num [show (("closed" == "half") : Bool) = false from rfl]
  decide

/-- Claim C2, amended: that release resolves the commit target to `half`,
the nearest entry, since the fast path to the upward neighbor fails both of
its tests. -/
theorem scenario_commit_half :
    (completePositionChange? scenarioConfig scenarioState (some (3/5))).map Prod.fst
      = some "half" := by
  norm_num [completePositionChange?, scenarioConfig, scenarioState, stableSortBy,
    stableInsertLe, sgn, List.findIdx, List.findIdx.go, List.get?,
    abs_of_nonneg, abs_of_nonpos]
  norm_num [show (("closed" == "half") : Bool) = false from rfl]

/-- On a non-empty snap table the reduce-based nearest-value scan returns a
value. -/
lemma findNearestSnapPoint?_eq_some (snapPoints : List (String × ℚ))
    (hne : snapPoints ≠ []) (p : ℚ) :
    ∃ q, findNearestSnapPoint? snapPoints p = some q := by
  cases snapPoints with
  | nil => exact absurd rfl hne
  | cons e rest => exact ⟨_, rfl⟩

/-- Stable insertion never produces the empty list. -/
lemma stableInsertLe_ne_nil (key : α → ℚ) (x : α) (l : List α) :
    stableInsertLe key x l ≠ [] := by
  cases l with
  | nil => simp [stableInsertLe]
  | cons y ys =>
    simp only [stableInsertLe]
    split_ifs <;> simp

/-- Stable sorting of a non-empty list is non-empty. -/
lemma stableSortBy_cons_ne_nil (key : α → ℚ) (x : α) (l : List α) :
    stableSortBy key (x :: l) ≠ [] := by
  simp only [stableSortBy]
  exact stableInsertLe_ne_nil key x _

/-- Claim C9, counterexample: with an empty snap table, the nearest-snap
lookup and the commit-target resolution both throw (`none` models the
thrown `TypeError`). -/
theorem empty_table_operations_throw :
    findNearestSnapPoint? emptyConfig.snapPoints (1/2) = none ∧
      completePositionChange? emptyConfig settled0 (some 0) = none :=
  ⟨rfl, rfl⟩

/-- Claim C9, amended: with a non-empty snap table every modelled operation
is total — the nearest-snap lookup, the commit-target resolution, and the
integration step (including its settle branch) all return a value. -/
theorem operations_total_on_nonempty_table (cfg : Config) (s : State) (p dt : ℚ)
    (ov : Option ℚ) (h : cfg.snapPoints ≠ []) :
    (findNearestSnapPoint? cfg.snapPoints p).isSome = true ∧
    (completePositionChange? cfg s ov).isSome = true ∧
    (animationFrame cfg s dt).isSome = true := by
  obtain ⟨q, hq⟩ := findNearestSnapPoint?_eq_some cfg.snapPoints h p
  refine ⟨by rw [hq]; rfl, ?_, ?_⟩
  · rcases hs : stableSortBy (fun e => |e.2 - s.position|) cfg.snapPoints with _ | ⟨c, rest⟩
    · cases hsp : cfg.snapPoints with
      | nil => exact absurd hsp h
      | cons e es =>
        rw [hsp] at hs
        exact absurd hs (stableSortBy_cons_ne_nil _ e es)
    · simp only [completePositionChange?, hs]
      rfl
  · by_cases hc : 1/100 < |stepVelocity cfg s dt| ∨ 1/1000 < |s.targetPosition - s.position|
    · simp only [animationFrame, if_pos hc]
      rfl
    · obtain ⟨q2, hq2⟩ :=
        findNearestSnapPoint?_eq_some cfg.snapPoints h (stepPosition cfg s dt)
      simp only [animationFrame, if_neg hc, hq2]
      rfl

/-- Witness for the amended C9 at the default configuration. -/
theorem operations_total_on_nonempty_table_witness :
    defaultConfig.snapPoints ≠ [] ∧
      (findNearestSnapPoint? defaultConfig.snapPoints (1/3)).isSome = true ∧
      (completePositionChange? defaultConfig settled0 none).isSome = true ∧
      (animationFrame defaultConfig settled0 (1/60)).isSome = true := by
  have h : defaultConfig.snapPoints ≠ [] := by simp [defaultConfig, defaultSnapPoints]
  obtain ⟨h1, h2, h3⟩ :=
    operations_total_on_nonempty_table defaultConfig settled0 (1/3) (1/60) none h
  exact ⟨h, h1, h2, h3⟩

/-- Claim C6, counterexample: the settled-state invariant holds at the
settled `closed` state but is destroyed by a single drag-tracking update to
position `0.3`, which leaves `animating == false`, `targetPosition == 0`
and a position off every snap point. -/
theorem invariant_not_preserved_by_drag :
    settledInvariant defaultConfig settled0 ∧
      ¬ settledInvariant defaultConfig (updatePositionFromDrag settled0 (3/10) 100) := by
  constructor
  · intro _
    exact ⟨rfl, Or.inl rfl⟩
  · intro hinv
    rcases hinv rfl with ⟨-, hp | hn⟩
    · norm_num [updatePositionFromDrag, settled0] at hp
    · norm_num [updatePositionFromDrag, settled0, defaultConfig, defaultSnapPoints,
        findNearestSnapPoint?, reduceNearest, abs_of_nonneg, abs_of_nonpos] at hn

/-- Claim C10: `getPositionName` returns the name of the first snap entry
strictly within `0.02` of the position (`none` when no entry is that
close), and consequently the controller updates its named-position state or
fires a position-change notification only when some snap entry is strictly
within `0.02` of the continuous position. -/
theorem getPositionName_first_within_tolerance (l : List (String × ℚ)) (c : String) (p : ℚ) :
    getPositionName l p = (l.find? fun e => decide (|p - e.2| < 1/50)).map Prod.fst ∧
    (((updateCurrentPosition l c p).1 = c ∧ (updateCurrentPosition l c p).2 = false) ∨
      ∃ e ∈ l, |p - e.2| < 1/50) := by
  have hfind : getPositionName l p
      = (l.find? fun e => decide (|p - e.2| < 1/50)).map Prod.fst := by
    induction l with
    | nil => rfl
    | cons e rest ih =>
      obtain ⟨name, value⟩ := e
      by_cases hcond : |p - value| < 1/50
      · rw [getPositionName, if_pos hcond,
          List.find?_cons_of_pos _ (by simpa using hcond)]
        rfl
      · rw [getPositionName, if_neg hcond,
          List.find?_cons_of_neg _ (by simpa using hcond)]
        exact ih
  refine ⟨hfind, ?_⟩
  cases hg : getPositionName l p with
  | none =>
    left
    unfold updateCurrentPosition
    rw [hg]
    exact ⟨rfl, rfl⟩
  | some n =>
    right
    rw [hfind] at hg
    cases hf : l.find? fun e => decide (|p - e.2| < 1/50) with
    | none => rw [hf] at hg; cases hg
    | some e =>
      have hpe := List.find?_some hf
      simp only [decide_eq_true_eq] at hpe
      exact ⟨e, List.mem_of_find?_eq_some hf, hpe⟩

/-- The push-if-valid loop over shifted indices collected by `filterMap`
agrees with filtering the shifted index list and mapping over it. -/
lemma velocityWeightPairs_aux (ph th : List ℚ) (n : ℕ) (l : List ℕ) :
    (l.filterMap fun j =>
        if 0 < (th.getD (j + 1) 0 - th.getD (j + 1 - 1) 0) / 1000 then
          some ((ph.getD (j + 1) 0 - ph.getD (j + 1 - 1) 0) /
                  ((th.getD (j + 1) 0 - th.getD (j + 1 - 1) 0) / 1000),
                (((j + 1 : ℕ) : ℚ) / ((n : ℚ) - 1)) ^ 2)
        else none)
      = ((l.map (fun j => j + 1)).filter fun i =>
            decide (1 ≤ i) && decide (0 < (th.getD i 0 - th.getD (i - 1) 0) / 1000)).map
          fun i => (deltaVelocity ph th i, deltaWeight n i) := by
  induction l with
  | nil => rfl
  | cons j js ih =>
    rw [List.filterMap_cons, List.map_cons, List.filter_cons]
    by_cases h : 0 < (th.getD (j + 1) 0 - th.getD (j + 1 - 1) 0) / 1000
    · have hb : (decide (1 ≤ j + 1) &&
          decide (0 < (th.getD (j + 1) 0 - th.getD (j + 1 - 1) 0) / 1000)) = true := by
        rw [Bool.and_eq_true, decide_eq_true_eq, decide_eq_true_eq]
        exact ⟨Nat.le_add_left 1 j, h⟩
      rw [if_pos h, hb, if_pos rfl, List.map_cons]
      exact List.cons_eq_cons.mpr ⟨rfl, ih⟩
    · have hb : (decide (1 ≤ j + 1) &&
          decide (0 < (th.getD (j + 1) 0 - th.getD (j + 1 - 1) 0) / 1000)) = false := by
        rw [decide_eq_false h, Bool.and_false]
      rw [if_neg h, hb, if_neg Bool.false_ne_true]
      exact ih

/-- The loop-collected pairs of `calculateVelocity` are exactly the valid
delta indices mapped to their (velocity, weight) pairs. -/
lemma velocityWeightPairs_eq_map (ph th : List ℚ) :
    velocityWeightPairs ph th
      = (validDeltaIndices ph th).map
          (fun i => (deltaVelocity ph th i, deltaWeight ph.length i)) := by
  unfold velocityWeightPairs validDeltaIndices
  cases hn : ph.length with
  | zero => rfl
  | succ m =>
    simp only [Nat.add_sub_cancel, List.range_succ_eq_map, List.filter_cons]
    have hb0 : (decide (1 ≤ 0) &&
        decide (0 < (th.getD 0 0 - th.getD (0 - 1) 0) / 1000)) = false := by
      simp
    rw [hb0, if_neg Bool.false_ne_true]
    exact velocityWeightPairs_aux ph th (m + 1) (List.range m)

/-- Every valid delta index carries a strictly positive weight once there
are at least two samples. -/
lemma validDeltaIndices_weight_pos (ph th : List ℚ) (hn : 2 ≤ ph.length) :
    ∀ i ∈ validDeltaIndices ph th, 0 < deltaWeight ph.length i := by
  intro i hi
  unfold validDeltaIndices at hi
  rw [List.mem_filter] at hi
  obtain ⟨-, hcond⟩ := hi
  rw [Bool.and_eq_true, decide_eq_true_eq, decide_eq_true_eq] at hcond
  have h1 : (1 : ℚ) ≤ (i : ℚ) := by exact_mod_cast hcond.1
  have h2 : (1 : ℚ) ≤ (ph.length : ℚ) - 1 := by
    have h3 : (2 : ℚ) ≤ (ph.length : ℚ) := by exact_mod_cast hn
    linarith
  unfold deltaWeight
  exact pow_pos (div_pos (by linarith) (by linarith)) 2

/-- Claim C5: the source velocity estimate equals the weighted average the
specification describes — consecutive-sample velocities over adjacent pairs
with positive time delta, the `i`-th delta weighted `(i/(n-1))^2`, with `0`
for short or zero-total-weight histories. -/
theorem calculateVelocity_eq_spec (ph th : List ℚ) :
    calculateVelocity ph th = calculateVelocitySpec ph th := by
  simp only [calculateVelocity, calculateVelocitySpec]
  by_cases hn : ph.length < 2
  · rw [if_pos hn, if_pos hn]
  · rw [if_neg hn, if_neg hn]
    rw [velocityWeightPairs_eq_map]
    by_cases hidx : validDeltaIndices ph th = []
    · rw [hidx]
      simp
    · have hpos : 0 < ((validDeltaIndices ph th).map (deltaWeight ph.length)).sum := by
        apply List.sum_pos
        · intro w hw
          rw [List.mem_map] at hw
          obtain ⟨i, hi, rfl⟩ := hw
          exact validDeltaIndices_weight_pos ph th (not_lt.mp hn) i hi
        · simpa using hidx
      rw [if_neg (by simpa using hidx)]
      have hsnd : (((validDeltaIndices ph th).map
            (fun i => (deltaVelocity ph th i, deltaWeight ph.length i))).map Prod.snd)
          = (validDeltaIndices ph th).map (deltaWeight ph.length) := by
        rw [List.map_map]
        rfl
      have hmul : (((validDeltaIndices ph th).map
            (fun i => (deltaVelocity ph th i, deltaWeight ph.length i))).map
              fun vw => vw.1 * vw.2)
          = (validDeltaIndices ph th).map
              fun i => deltaVelocity ph th i * deltaWeight ph.length i := by
        rw [List.map_map]
        rfl
      rw [hsnd, hmul, if_pos hpos, if_neg (ne_of_gt hpos)]

/-- The nearest-value fold keeps its accumulator or picks a list element. -/
lemma foldl_nearest_mem (p : ℚ) (vs : List ℚ) :
    ∀ acc : ℚ,
      vs.foldl (fun prev curr => if |curr - p| < |prev - p| then curr else prev) acc = acc ∨
      vs.foldl (fun prev curr => if |curr - p| < |prev - p| then curr else prev) acc ∈ vs := by
  induction vs with
  | nil => intro acc; exact Or.inl rfl
  | cons w ws ih =>
    intro acc
    simp only [List.foldl_cons]
    rcases ih (if |w - p| < |acc - p| then w else acc) with h | h
    · rw [h]
      split_ifs
      · exact Or.inr (List.mem_cons_self w ws)
      · exact Or.inl rfl
    · exact Or.inr (List.mem_cons_of_mem w h)

/-- The nearest-value fold minimises the distance to `p` over the
accumulator and all list elements. -/
lemma foldl_nearest_le (p : ℚ) (vs : List ℚ) :
    ∀ acc : ℚ,
      |vs.foldl (fun prev curr => if |curr - p| < |prev - p| then curr else prev) acc - p|
          ≤ |acc - p| ∧
      ∀ v ∈ vs,
        |vs.foldl (fun prev curr => if |curr - p| < |prev - p| then curr else prev) acc - p|
          ≤ |v - p| := by
  induction vs with
  | nil => intro acc; exact ⟨le_refl _, by simp⟩
  | cons w ws ih =>
    intro acc
    simp only [List.foldl_cons]
    obtain ⟨ih1, ih2⟩ := ih (if |w - p| < |acc - p| then w else acc)
    have hacc : |(if |w - p| < |acc - p| then w else acc) - p| ≤ |acc - p| := by
      split_ifs with hw
      · exact hw.le
      · exact le_refl _
    have hw : |(if |w - p| < |acc - p| then w else acc) - p| ≤ |w - p| := by
      split_ifs with hw
      · exact le_refl _
      · exact not_lt.mp hw
    refine ⟨le_trans ih1 hacc, ?_⟩
    intro v hv
    rcases List.mem_cons.mp hv with rfl | hv'
    · exact le_trans ih1 hw
    · exact ih2 v hv'

/-- The nearest-snap lookup returns a snap value minimising the absolute
distance to the query position. -/
lemma findNearestSnapPoint?_min (snapPoints : List (String × ℚ)) (p q : ℚ)
    (h : findNearestSnapPoint? snapPoints p = some q) :
    q ∈ snapPoints.map Prod.snd ∧ ∀ v ∈ snapPoints.map Prod.snd, |q - p| ≤ |v - p| := by
  unfold findNearestSnapPoint? at h
  cases hm : snapPoints.map Prod.snd with
  | nil => rw [hm] at h; exact absurd h (by simp [reduceNearest])
  | cons v vs =>
    rw [hm] at h
    simp only [reduceNearest, Option.some.injEq] at h
    rw [← h]
    constructor
    · rcases foldl_nearest_mem p vs v with h1 | h1
      · rw [h1]; exact List.mem_cons_self v vs
      · exact List.mem_cons_of_mem v h1
    · intro w hw
      obtain ⟨h1, h2⟩ := foldl_nearest_le p vs v
      rcases List.mem_cons.mp hw with rfl | hw'
      · exact h1
      · exact h2 w hw'

/-- Looking up the nearest snap value at a snap value returns that value. -/
lemma findNearestSnapPoint?_self (snapPoints : List (String × ℚ)) (q : ℚ)
    (hmem : q ∈ snapPoints.map Prod.snd) :
    findNearestSnapPoint? snapPoints q = some q := by
  have hne : snapPoints ≠ [] := by
    intro hnil
    rw [hnil] at hmem
    simp at hmem
  obtain ⟨r, hr⟩ := findNearestSnapPoint?_eq_some snapPoints hne q
  obtain ⟨-, hmin⟩ := findNearestSnapPoint?_min snapPoints q r hr
  have hle : |r - q| ≤ |q - q| := hmin q hmem
  have hrq : r = q := by
    rw [sub_self, abs_zero] at hle
    have h0 : |r - q| = 0 := le_antisymm hle (abs_nonneg _)
    exact sub_eq_zero.mp (abs_eq_zero.mp h0)
  rw [hrq] at hr
  exact hr

/-- Claim C6, amended: every integration step invoked while animating
produces a state satisfying the settled-state invariant — on termination
the velocity is zero and the position is exactly the nearest snap point or
exactly the (unchanged) target. -/
theorem animationFrame_establishes_settled_invariant (cfg : Config) (s : State) (dt : ℚ)
    (fr : FrameResult) (hs : s.animating = true)
    (h : animationFrame cfg s dt = some fr) :
    settledInvariant cfg fr.state := by
  by_cases hc : 1/100 < |stepVelocity cfg s dt| ∨ 1/1000 < |s.targetPosition - s.position|
  · simp only [animationFrame, if_pos hc, Option.some.injEq] at h
    intro hfalse
    rw [← h] at hfalse
    simp only [hs] at hfalse
    exact absurd hfalse (by simp)
  · cases hq : findNearestSnapPoint? cfg.snapPoints (stepPosition cfg s dt) with
    | none =>
      rw [animationFrame] at h
      simp only [if_neg hc, hq] at h
      exact Option.noConfusion h
    | some nearest =>
      rw [animationFrame] at h
      simp only [if_neg hc, hq, Option.some.injEq] at h
      obtain ⟨hmem, -⟩ := findNearestSnapPoint?_min cfg.snapPoints _ nearest hq
      rintro -
      rw [← h]
      refine ⟨rfl, ?_⟩
      show (if |stepPosition cfg s dt - nearest| < 1/100 then nearest else s.targetPosition)
          = s.targetPosition ∨ _
      split_ifs with hclose
      · right
        show findNearestSnapPoint? cfg.snapPoints nearest = some nearest
        exact findNearestSnapPoint?_self cfg.snapPoints nearest hmem
      · left
        rfl

/-- Witness for the amended C6: a settling step at the default
configuration lands in a state satisfying the invariant. -/
theorem animationFrame_establishes_settled_invariant_witness :
    settlingState.animating = true ∧
      settledInvariant defaultConfig
        (((animationFrame defaultConfig settlingState (1/60)).map FrameResult.state).getD
          settled0) := by
  refine ⟨rfl, ?_⟩
  cases hfr : animationFrame defaultConfig settlingState (1/60) with
  | none =>
    intro _
    exact ⟨rfl, Or.inl rfl⟩
  | some fr =>
    have := animationFrame_establishes_settled_invariant defaultConfig settlingState (1/60)
      fr rfl hfr
    simpa using this

/-- Claim C3: an integration step invoked while animating ends the
animation exactly when the stepped velocity is at most `0.01` in magnitude
and the step displacement is at most `0.001` in magnitude; on termination
the completion callback fires, the velocity is zeroed, the target is
unchanged, and the final position is exactly the nearest snap entry when
the settling position is strictly within `0.01` of it (in particular
whenever it is strictly within `0.01` of any table entry) and exactly the
possibly-overshot target otherwise. -/
theorem animationFrame_termination (cfg : Config) (s : State) (dt : ℚ)
    (hne : cfg.snapPoints ≠ []) (ha : s.animating = true) :
    ∃ fr : FrameResult, animationFrame cfg s dt = some fr ∧
      (fr.state.animating = false ↔
        |stepVelocity cfg s dt| ≤ 1/100 ∧ |s.targetPosition - s.position| ≤ 1/1000) ∧
      (fr.state.animating = false →
        fr.completed = true ∧ fr.state.velocity = 0 ∧
        fr.state.targetPosition = s.targetPosition ∧
        ∃ nearest,
          findNearestSnapPoint? cfg.snapPoints (stepPosition cfg s dt) = some nearest ∧
          (|stepPosition cfg s dt - nearest| < 1/100 → fr.state.position = nearest) ∧
          (¬ |stepPosition cfg s dt - nearest| < 1/100 →
            fr.state.position = s.targetPosition) ∧
          ∀ w ∈ cfg.snapPoints.map Prod.snd,
            |stepPosition cfg s dt - w| < 1/100 → fr.state.position = nearest) := by
  by_cases hc : 1/100 < |stepVelocity cfg s dt| ∨ 1/1000 < |s.targetPosition - s.position|
  · refine ⟨⟨{ s with
        position := stepPosition cfg s dt,
        velocity := stepVelocity cfg s dt }, false⟩,
      by simp only [animationFrame, if_pos hc], ?_, ?_⟩
    · show s.animating = false ↔ _
      rw [ha]
      constructor
      · intro hcontra
        exact absurd hcontra (by simp)
      · rintro ⟨h1, h2⟩
        rcases hc with hc | hc
        · exact absurd h1 (not_le.mpr hc)
        · exact absurd h2 (not_le.mpr hc)
    · show s.animating = false → _
      rw [ha]
      intro hcontra
      exact absurd hcontra (by simp)
  · have hc' := hc
    rw [not_or, not_lt, not_lt] at hc'
    obtain ⟨q, hq⟩ := findNearestSnapPoint?_eq_some cfg.snapPoints hne (stepPosition cfg s dt)
    obtain ⟨-, hmin⟩ := findNearestSnapPoint?_min cfg.snapPoints _ q hq
    refine ⟨⟨{ s with
        position :=
          (if |stepPosition cfg s dt - q| < 1/100 then q else s.targetPosition),
        velocity := 0,
        animating := false }, true⟩,
      by simp only [animationFrame, if_neg hc, hq], ?_, ?_⟩
    · exact ⟨fun _ => ⟨hc'.1, hc'.2⟩, fun _ => rfl⟩
    · intro _
      refine ⟨rfl, rfl, rfl, q, hq, ?_, ?_, ?_⟩
      · intro hclose
        show (if |stepPosition cfg s dt - q| < 1/100 then q else s.targetPosition) = q
        rw [if_pos hclose]
      · intro hfar
        show (if |stepPosition cfg s dt - q| < 1/100 then q else s.targetPosition)
            = s.targetPosition
        rw [if_neg hfar]
      · intro w hw hwclose
        have h1 : |q - stepPosition cfg s dt| ≤ |w - stepPosition cfg s dt| := hmin w hw
        have h2 : |stepPosition cfg s dt - q| < 1/100 := by
          rw [abs_sub_comm]
          calc |q - stepPosition cfg s dt| ≤ |w - stepPosition cfg s dt| := h1
            _ < 1/100 := by rw [abs_sub_comm]; exact hwclose
        show (if |stepPosition cfg s dt - q| < 1/100 then q else s.targetPosition) = q
        rw [if_pos h2]

/-- Witness for C3: the settled state under the default configuration
terminates on its next frame. -/
theorem animationFrame_termination_witness :
    defaultConfig.snapPoints ≠ [] ∧ settlingState.animating = true ∧
      (animationFrame defaultConfig settlingState (1/60)).isSome = true := by
  refine ⟨by simp [defaultConfig, defaultSnapPoints], rfl, ?_⟩
  obtain ⟨fr, hfr, -, -⟩ := animationFrame_termination defaultConfig settlingState (1/60)
    (by simp [defaultConfig, defaultSnapPoints]) rfl
  rw [hfr]
  rfl

/-- The keep-first-minimum step is associative in the sense needed to
commute a fold accumulator. -/
lemma minStep_assoc (key : α → ℚ) (x y z : α) :
    (if key z < key (if key y < key x then y else x) then z
     else (if key y < key x then y else x))
      = (if key (if key z < key y then z else y) < key x
         then (if key z < key y then z else y) else x) := by
  split_ifs <;> first | rfl | (exfalso; linarith)

/-- Folding the keep-first-minimum step from a two-candidate accumulator
splits into the fold from the later candidate compared against the earlier
one. -/
lemma foldl_min_eq_step (key : α → ℚ) :
    ∀ (l : List α) (x y : α),
      l.foldl (fun best w => if key w < key best then w else best)
          (if key y < key x then y else x)
        = (if key (l.foldl (fun best w => if key w < key best then w else best) y) < key x
           then l.foldl (fun best w => if key w < key best then w else best) y
           else x) := by
  intro l
  induction l with
  | nil => intro x y; rfl
  | cons z zs ih =>
    intro x y
    simp only [List.foldl_cons]
    rw [minStep_assoc key x y z]
    exact ih x (if key z < key y then z else y)

/-- The head of the stable sort is the first element attaining the minimal
key. -/
lemma stableSortBy_head? (key : α → ℚ) :
    ∀ l : List α, (stableSortBy key l).head? = firstMinBy key l := by
  intro l
  induction l with
  | nil => rfl
  | cons x xs ih =>
    simp only [stableSortBy, firstMinBy]
    cases hs : stableSortBy key xs with
    | nil =>
      have hxs : xs = [] := by
        cases xs with
        | nil => rfl
        | cons a as => exact absurd hs (stableSortBy_cons_ne_nil key a as)
      subst hxs
      rfl
    | cons y ys =>
      rw [hs] at ih
      have hy : firstMinBy key xs = some y := by rw [← ih]; rfl
      cases xs with
      | nil => simp [stableSortBy] at hs
      | cons a as =>
        simp only [firstMinBy, Option.some.injEq] at hy
        rw [List.foldl_cons, foldl_min_eq_step key as x a, hy]
        simp only [stableInsertLe]
        split_ifs <;> first | rfl | (exfalso; linarith)

/-- Core of the amended C1: with an explicit velocity override, the source
commit-target resolution returns the name that the amended specification
resolution computes. -/
lemma completePositionChange_core (cfg : Config) (s : State) (m : ℚ) :
    (completePositionChange? cfg s (some m)).map Prod.fst
      = commitTargetAmended cfg.snapPoints s.position m := by
  simp only [completePositionChange?, commitTargetAmended]
  cases hs : stableSortBy (fun e => |e.2 - s.position|) cfg.snapPoints with
  | nil =>
    have hfm : firstMinBy (fun e => |e.2 - s.position|) cfg.snapPoints = none := by
      rw [← stableSortBy_head?, hs]
      rfl
    rw [hfm]
    rfl
  | cons closestE rest =>
    have hfm : firstMinBy (fun e => |e.2 - s.position|) cfg.snapPoints = some closestE := by
      rw [← stableSortBy_head?, hs]
      rfl
    rw [hfm]
    simp only [Option.map_some']
    rcases le_or_lt |m * (12/10)| (1/2) with hle | hgt
    · rw [if_neg (not_lt.mpr hle), if_pos hle]
    · rw [if_pos hgt, if_neg (not_le.mpr hgt)]
      rcases lt_trichotomy (m * (12/10)) 0 with hv | hv | hv
      · have hsgn : sgn (m * (12/10)) = -1 := by rw [sgn, if_neg (by linarith), if_pos hv]
        rw [hsgn]
        rw [if_neg (by norm_num), if_pos (by norm_num), if_neg (not_lt.mpr hv.le)]
        by_cases hI0 : (stableSortBy (fun e => e.2) cfg.snapPoints).findIdx
            (fun e => e.1 == closestE.1) = 0
        · rw [hI0]
          rw [if_neg (by norm_num), if_pos rfl]
        · rw [if_pos (Nat.pos_of_ne_zero hI0), if_neg hI0]
          cases hget : (stableSortBy (fun e => e.2) cfg.snapPoints).get?
              ((stableSortBy (fun e => e.2) cfg.snapPoints).findIdx
                (fun e => e.1 == closestE.1) - 1) with
          | none => rfl
          | some pb =>
            dsimp only
            rw [if_neg (not_lt.mpr hv.le)]
            by_cases hcond : 0 < s.position - pb.2 ∧
                (1/2 * (1 + (s.position - pb.2) * 2) < |m * (12/10)| ∨
                  s.position - pb.2 < 1/10)
            · rw [if_pos hcond, if_pos ⟨hcond.1, hcond.2.symm⟩]
            · rw [if_neg hcond, if_neg (fun hc => hcond ⟨hc.1, hc.2.symm⟩)]
      · exact absurd hv (by intro h0; rw [h0] at hgt; norm_num at hgt)
      · have hsgn : sgn (m * (12/10)) = 1 := by rw [sgn, if_pos hv]
        rw [hsgn]
        rw [if_pos (by norm_num), if_pos hv]
        by_cases hI : (stableSortBy (fun e => e.2) cfg.snapPoints).findIdx
            (fun e => e.1 == closestE.1)
            < (stableSortBy (fun e => e.2) cfg.snapPoints).length - 1
        · rw [if_pos hI]
          cases hget : (stableSortBy (fun e => e.2) cfg.snapPoints).get?
              ((stableSortBy (fun e => e.2) cfg.snapPoints).findIdx
                (fun e => e.1 == closestE.1) + 1) with
          | none => rfl
          | some nb =>
            dsimp only
            rw [if_pos hv]
            by_cases hcond : 0 < nb.2 - s.position ∧
                (1/2 * (1 + (nb.2 - s.position) * 2) < |m * (12/10)| ∨
                  nb.2 - s.position < 1/10)
            · rw [if_pos hcond, if_pos ⟨hcond.1, hcond.2.symm⟩]
            · rw [if_neg hcond, if_neg (fun hc => hcond ⟨hc.1, hc.2.symm⟩)]
        · rw [if_neg hI]
          have hnone : (stableSortBy (fun e => e.2) cfg.snapPoints).get?
              ((stableSortBy (fun e => e.2) cfg.snapPoints).findIdx
                (fun e => e.1 == closestE.1) + 1) = none := by
            rw [List.get?_eq_none]
            omega
          rw [hnone]

/-- Claim C1, amended: for every snap table, release position and measured
velocity, `completePositionChange` returns exactly the name the amended
resolution prescribes — nearest entry by absolute distance by default, the
ordered-by-position neighbor in the travel direction when `|v| > 0.5`, the
remaining distance `d` to it is strictly positive, and `d < 0.1` or
`|v| > 0.5 * (1 + d * 2)` (with `v` the measured velocity times the `1.2`
gain). -/
theorem completePositionChange_resolves_commit_target (cfg : Config) (s : State)
    (velocityOverride : Option ℚ) :
    (completePositionChange? cfg s velocityOverride).map Prod.fst
      = commitTargetAmended cfg.snapPoints s.position
          (velocityOverride.getD (calculateVelocity s.positionHistory s.timeHistory)) := by
  cases velocityOverride with
  | some v => exact completePositionChange_core cfg s v
  | none =>
    exact completePositionChange_core cfg s
      (calculateVelocity s.positionHistory s.timeHistory)

/-- Claim C1, counterexample: on the duplicate-value table `{a: 0.5,
b: 0.5}`, released exactly at `0.5` with override velocity `1`, the source
keeps the nearest entry `a` (the remaining distance `0` fails its strict
positivity test), while the claim as stated (distance `0 < 0.1`) resolves
to the neighbor `b`. -/
theorem commit_target_claim_counterexample :
    (completePositionChange? dupConfig dupState (some 1)).map Prod.fst
      ≠ commitTargetClaim dupConfig.snapPoints dupState.position 1 := by
  norm_num [completePositionChange?, commitTargetClaim, dupConfig, dupState, firstMinBy,
    stableSortBy, stableInsertLe, sgn, List.findIdx, List.findIdx.go, List.get?,
    abs_of_nonneg, abs_of_nonpos]
  decide

/-- Claim C7, counterexample: starting mid-animation at position 0 with
target 1, a frame sequence whose elapsed times are all zero (admissible
under the `min 0.064` clamp) never reaches `animating == false`, for any
number of frames. -/
theorem convergence_fails_on_zero_dt_frames :
    ¬ ∃ n : ℕ, (zeroDtStep^[n] stallState).animating = false := by
  have hfix : zeroDtStep stallState = stallState := by
    norm_num [zeroDtStep, animationFrame, stepVelocity, stepPosition, stallState,
      defaultConfig, abs_of_nonneg, abs_of_nonpos]
  rintro ⟨n, hn⟩
  rw [Function.iterate_fixed hfix] at hn
  exact absurd hn (by norm_num [stallState])

/-- Claim C7, amended: an integration step with zero elapsed time leaves
the state unchanged (and keeps animating) whenever the remaining
displacement exceeds the settle epsilon, so convergence is not guaranteed
for every admissible frame sequence. -/
theorem animationFrame_zero_dt_stalls (cfg : Config) (s : State)
    (h : 1/1000 < |s.targetPosition - s.position|) :
    animationFrame cfg s 0 = some ⟨s, false⟩ := by
  have hv : stepVelocity cfg s 0 = s.velocity := by
    simp only [stepVelocity, mul_zero, add_zero]
    rw [if_neg]
    rintro ⟨-, h2⟩
    exact absurd h (not_lt.mpr h2.le)
  simp only [animationFrame, stepPosition, hv, mul_zero, add_zero]
  split_ifs with hc
  · rfl
  · exact absurd (Or.inr h) hc

/-- Witness for the amended C7 at the stalled state. -/
theorem animationFrame_zero_dt_stalls_witness :
    1/1000 < |stallState.targetPosition - stallState.position| ∧
      animationFrame defaultConfig stallState 0 = some ⟨stallState, false⟩ :=
  ⟨by norm_num [stallState, abs_of_nonneg],
   animationFrame_zero_dt_stalls defaultConfig stallState
     (by norm_num [stallState, abs_of_nonneg])⟩

end SheetMotion
